import Mathlib

/-!
# ascii-edit — verification of spec claims

Shallow embedding of the core engines of the ascii-edit repository:

* `src/src/lib/castParser.js` — event-time normalization (`normalizeEvents`);
* `src/unnamed/part_000` — the timeline segment model (`segmentLength`,
  `sourceLength`, `timelineToSourceTime`, `splitAtPlayhead`,
  `buildEditedCast`);
* `src/unnamed/part_001` — the clip edit actions (`healSelectedClips`,
  the `cut` / `delete` / `paste` branches of `applyMenuAction`);
* `src/src/main.jsx` — the terminal replay engine (`renderTerminalToHtml`
  with its inner `writeChar`, `eraseInLine`, `eraseInDisplay`, `applySgr`,
  `handleEscape`, `processText`, `renderRow`, and the color resolver
  `ansi256ToHex` / `rgbToHex`).

Modelling conventions:
* JS numbers are embedded as `ℚ` (times, durations, ratios).  All the
  arithmetic the claims are about is exact in the source formulas; the
  only rounding step, `Number(x.toFixed(6))`, is embedded as `round6`.
* JS `undefined` / `null` become `Option`.
* The `id` and `label` fields of segments (random UUIDs and display
  labels) carry no timing information and no claim mentions them; they
  are omitted, and the id-lookups of the edit actions are embedded as
  positions (indices) in the segment list.
* Edit operations that "decline" in JS return `false`/early-return
  without having mutated the model; they are embedded as functions
  returning `Option` with `none` for a declined (no-op) edit.
-/

namespace AsciiEdit

/-- JS `clamp(v, min, max) = Math.max(min, Math.min(max, v))`
(`src/unnamed/part_000` line 1). -/
def clamp (v lo hi : ℚ) : ℚ := max lo (min hi v)

/-! ## Cast events and time normalization (`castParser.js`) -/

/-- One entry of a cast file's `events` array.  `bad` stands for an entry
that is not an array of length ≥ 3 or whose time is not a finite number —
exactly the entries `normalizeEvents` and `buildEditedCast` skip. -/
inductive RawEv where
  | bad : RawEv
  | ev (time : ℚ) (kind : String) (data : String) : RawEv
deriving DecidableEq, Repr

/-- The condition `rawTime < prevRaw` of `normalizeEvents`
(`castParser.js` line 36); `prevRaw` starts as `-Infinity`, embedded as
`none`, for which the comparison is always false. -/
def rawLtPrev (raw : ℚ) : Option ℚ → Bool
  | none => false
  | some p => decide (raw < p)

/-- The loop of `normalizeEvents` (`castParser.js` lines 27–45): state is
`cursor` and `prevRaw`; invalid entries are skipped before any state
update; in delta mode (`useDelta`) every time is `cursor += max(0, raw)`;
otherwise a raw time below the previous raw time is treated as a delta
and any other raw time is taken absolute (`cursor = raw`). -/
def normGo (useDelta : Bool) : ℚ → Option ℚ → List RawEv → List (ℚ × String × String)
  | _, _, [] => []
  | cursor, prevRaw, .bad :: rest => normGo useDelta cursor prevRaw rest
  | cursor, prevRaw, .ev raw k d :: rest =>
    if useDelta then
      (cursor + max 0 raw, k, d) :: normGo useDelta (cursor + max 0 raw) (some raw) rest
    else if rawLtPrev raw prevRaw then
      (cursor + max 0 raw, k, d) :: normGo useDelta (cursor + max 0 raw) (some raw) rest
    else
      (raw, k, d) :: normGo useDelta raw (some raw) rest

/-- `normalizeEvents(events, version)` (`castParser.js` lines 21–48);
`useDelta = Number(version) >= 3`. -/
def normalizeEvents (version : ℚ) (events : List RawEv) : List (ℚ × String × String) :=
  normGo (decide (3 ≤ version)) 0 none events

/-- The times of a normalized event list. -/
def evTimes (l : List (ℚ × String × String)) : List ℚ := l.map (·.1)

/-- The raw times of the valid entries of an `events` array, in order —
the times `normalizeEvents` actually consumes. -/
def validRawTimes : List RawEv → List ℚ
  | [] => []
  | .bad :: rest => validRawTimes rest
  | .ev t _ _ :: rest => t :: validRawTimes rest

/-! ## Timeline segment model (`part_000`) -/

/-- A timeline segment (`part_000`; see spec §3).  The JS `end` field is a
Lean keyword and is embedded as `endTime`; the presentational `id` and
`label` fields are omitted (see the header comment). -/
structure Segment where
  sourceId : Option ℕ
  start : ℚ
  endTime : ℚ
  timelineDuration : ℚ
deriving DecidableEq, Repr

/-- `sourceLength(seg) = Math.max(0.00001, seg.end - seg.start)`
(`part_000` line 21). -/
def sourceLength (seg : Segment) : ℚ := max (1/100000) (seg.endTime - seg.start)

/-- `segmentLength(seg)` (`part_000` lines 22–23).  `timelineDuration : ℚ`
is always finite, so the `Number.isFinite` fallback to `sourceLength`
never fires in the embedding. -/
def segmentLength (seg : Segment) : ℚ := max (1/100000) seg.timelineDuration

/-- A loaded source recording as the edit actions see it: an id and its
(normalized) `events` array (`part_001`, `parseSourceFile`). -/
structure Source where
  id : ℕ
  events : List RawEv
deriving DecidableEq, Repr

/-- The slice of the mutable editor model that the embedded operations
read: the ordered segment list, the playhead, the maintained
`composedDuration`, the primary recording's `events`, the registered
`sources`, and the clipboard. -/
structure Model where
  segments : List Segment
  playheadTime : ℚ
  composedDuration : ℚ
  events : List RawEv
  sources : List Source
  clipboardSegment : Option Segment
deriving DecidableEq, Repr

/-- Sum of `segmentLength` over a segment list — what
`rebuildComposedDuration` (`part_000` lines 25–27) stores in
`composedDuration`. -/
def totalLength (segs : List Segment) : ℚ := (segs.map segmentLength).sum

/-- Cumulative timeline length of the first `k` segments (the `cursor`
value the loops of `part_000` reach at index `k`). -/
def cumLen (segs : List Segment) (k : ℕ) : ℚ := ((segs.take k).map segmentLength).sum

/-- The per-segment timeline-offset → source-time map used by
`timelineToSourceTime` (`part_000` lines 66–68): clamp the offset into
`[0, timelineLen]`, take the ratio (a degenerate `timelineLen ≤ 0` is
ratio 1), and scale into the source range. -/
def segMap (seg : Segment) (off : ℚ) : ℚ :=
  let timelineLen := segmentLength seg
  let offset := clamp off 0 timelineLen
  let ratio := if timelineLen ≤ 0 then 1 else offset / timelineLen
  seg.start + sourceLength seg * ratio

/-- The loop of `timelineToSourceTime` (`part_000` lines 60–73).  The JS
`seg === model.segments[model.segments.length - 1]` test (reference
equality with the last element) is embedded as `rest = []`. -/
def t2sGo (t : ℚ) : ℚ → List Segment → ℚ
  | _, [] => 0
  | cursor, seg :: rest =>
    if t ≤ cursor + segmentLength seg ∨ rest = [] then segMap seg (t - cursor)
    else t2sGo t (cursor + segmentLength seg) rest

/-- `timelineToSourceTime(model, timelineTime)` (`part_000` lines 60–73). -/
def timelineToSourceTime (m : Model) (t : ℚ) : ℚ := t2sGo t 0 m.segments

/-- The left piece a split produces (`part_000` lines 87–93). -/
def mkLeft (seg : Segment) (sst ratio : ℚ) : Segment :=
  { seg with endTime := sst, timelineDuration := max (1/100) (segmentLength seg * ratio) }

/-- The right piece a split produces (`part_000` lines 94–100). -/
def mkRight (seg : Segment) (sst ratio : ℚ) : Segment :=
  { seg with start := sst, timelineDuration := max (1/100) (segmentLength seg * (1 - ratio)) }

/-- The loop of `splitAtPlayhead` (`part_000` lines 77–107): find the
segment whose open cumulative range strictly contains `t`; decline
(`none`) when the source split point is within 0.01 of either source
boundary; otherwise replace that segment by the two pieces. -/
def splitGo (t : ℚ) : ℚ → List Segment → Option (List Segment)
  | _, [] => none
  | cursor, seg :: rest =>
    let timelineLen := segmentLength seg
    if cursor < t ∧ t < cursor + timelineLen then
      let ratio := clamp ((t - cursor) / timelineLen) 0 1
      let sst := seg.start + sourceLength seg * ratio
      if sst ≤ seg.start + 1/100 ∨ seg.endTime - 1/100 ≤ sst then none
      else some (mkLeft seg sst ratio :: mkRight seg sst ratio :: rest)
    else (splitGo t (cursor + timelineLen) rest).map (seg :: ·)

/-- `splitAtPlayhead(model)` (`part_000` lines 75–108).  `none` is the
declined case (the JS function returns `false` without having touched
the model on every decline path). -/
def splitAtPlayhead (m : Model) : Option (List Segment) :=
  if m.segments.isEmpty ∨ m.playheadTime ≤ 0 ∨ m.composedDuration ≤ m.playheadTime then none
  else splitGo m.playheadTime 0 m.segments

/-- The merged segment `healSelectedClips` builds (`part_001` lines
930–936); the regex-rewritten `label` is presentational and omitted. -/
def mkHealed (left right : Segment) : Segment :=
  { left with endTime := right.endTime,
              timelineDuration := segmentLength left + segmentLength right }

/-- `healSelectedClips` (`part_001` lines 915–943) with the two selected
clips given by their positions `i1`, `i2` in the segment list: both must
exist, be timeline-adjacent, reference the same source, and have
`|left.end - right.start| ≤ 0.02` (the `healTolerance`). -/
def healSelectedClips (segs : List Segment) (i1 i2 : ℕ) : Option (List Segment) :=
  if i1 < segs.length ∧ i2 < segs.length then
    let l := min i1 i2
    let r := max i1 i2
    if r ≠ l + 1 then none
    else
      match segs.get? l, segs.get? r with
      | some left, some right =>
        if left.sourceId ≠ right.sourceId then none
        else if ¬ |left.endTime - right.start| ≤ 1/50 then none
        else some (segs.take l ++ mkHealed left right :: segs.drop (l + 2))
      | _, _ => none
  else none

/-- The `cut` branch of `applyMenuAction` (`part_001` lines 966–976),
acting on the clip at position `clipIndex` (the JS id-lookup): declines
when the clip does not exist or it is the last remaining segment, else
removes it.  (The clipboard write of `cut` does not touch the segment
list and is not modelled here.) -/
def cutAction (m : Model) (clipIndex : ℕ) : Option (List Segment) :=
  if clipIndex < m.segments.length then
    if m.segments.length ≤ 1 then none
    else some (m.segments.take clipIndex ++ m.segments.drop (clipIndex + 1))
  else none

/-- The `delete` branch of `applyMenuAction` (`part_001` lines 978–987):
same guard and same splice as `cut`, without the clipboard write. -/
def deleteAction (m : Model) (clipIndex : ℕ) : Option (List Segment) :=
  if clipIndex < m.segments.length then
    if m.segments.length ≤ 1 then none
    else some (m.segments.take clipIndex ++ m.segments.drop (clipIndex + 1))
  else none

/-- The `paste-before` / `paste-after` branch of `applyMenuAction`
(`part_001` lines 996–1012): needs an existing reference clip and a
non-empty clipboard; inserts a clone of the clipboard segment before or
after the reference clip (the clone's fresh id and `label … Copy` are
presentational and omitted). -/
def pasteAction (m : Model) (clipIndex : ℕ) (after : Bool) : Option (List Segment) :=
  if clipIndex < m.segments.length then
    match m.clipboardSegment with
    | none => none
    | some cb =>
      let pos := if after then clipIndex + 1 else clipIndex
      some (m.segments.take pos ++ cb :: m.segments.drop pos)
  else none

/-! ## Export builder (`buildEditedCast`, `part_000` lines 125–154) -/

/-- `Number(x.toFixed(6))`: round to 6 decimal places (ECMAScript
`toFixed` picks the larger candidate on a tie, i.e. rounds half up,
which is Mathlib's `round`). -/
def round6 (x : ℚ) : ℚ := (round (x * 1000000) : ℤ) / 1000000

/-- `new Map(sources.map(s => [s.id, s])).get(sid)`: the last source with
a given id wins. -/
def lookupSource (sources : List Source) (sid : ℕ) : Option Source :=
  sources.reverse.find? (fun s => s.id == sid)

/-- `seg.sourceId ? sourceById.get(seg.sourceId) : null` followed by
`source ? source.events : model.events` (`part_000` lines 132–133): a
missing id and a failed lookup both fall back to the primary recording's
events. -/
def segEvents (m : Model) (seg : Segment) : List RawEv :=
  match seg.sourceId with
  | none => m.events
  | some sid =>
    match lookupSource m.sources sid with
    | some src => src.events
    | none => m.events

/-- The re-timing formula of `buildEditedCast` (`part_000` lines
141–143): `ratio = srcLen <= 0 ? 0 : (t - start)/srcLen`, `mapped =
timelineCursor + ratio * timelineLen`, rounded to 6 decimals.
`srcLen = sourceLength seg` is positive, so the `srcLen <= 0` guard is
kept only for fidelity. -/
def segEvTime (seg : Segment) (cursor t : ℚ) : ℚ :=
  round6 (cursor +
    (if sourceLength seg ≤ 0 then 0 else (t - seg.start) / sourceLength seg) * segmentLength seg)

/-- One iteration of the inner event loop of `buildEditedCast`
(`part_000` lines 136–145): skip an invalid entry, keep an event with
`start ≤ t ≤ end` re-timed via `segEvTime`, drop the rest. -/
def mapSegEv (seg : Segment) (cursor : ℚ) : RawEv → Option (ℚ × String × String)
  | .bad => none
  | .ev t k d =>
    if seg.start ≤ t ∧ t ≤ seg.endTime then some (segEvTime seg cursor t, k, d)
    else none

/-- The inner event loop of `buildEditedCast` for one segment. -/
def mapSegEvents (seg : Segment) (cursor : ℚ) (evs : List RawEv) : List (ℚ × String × String) :=
  evs.filterMap (mapSegEv seg cursor)

/-- The segment walk of `buildEditedCast` (`part_000` lines 131–147),
with the running `timelineCursor`. -/
def buildGo (m : Model) : ℚ → List Segment → List (ℚ × String × String)
  | _, [] => []
  | cursor, seg :: rest =>
    mapSegEvents seg cursor (segEvents m seg) ++ buildGo m (cursor + segmentLength seg) rest

/-- The `events` array of `buildEditedCast(model)` (`part_000` lines
125–154).  The surrounding header (`{...header, version: 2, events}`)
carries no time information and is not needed by the claims. -/
def buildEditedCastEvents (m : Model) : List (ℚ × String × String) := buildGo m 0 m.segments

/-! ## Basic lemmas about the timeline model -/

lemma segmentLength_pos (seg : Segment) : 0 < segmentLength seg :=
  lt_of_lt_of_le (by norm_num) (le_max_left _ _)

lemma sourceLength_pos (seg : Segment) : 0 < sourceLength seg :=
  lt_of_lt_of_le (by norm_num) (le_max_left _ _)

lemma segmentLength_eq {seg : Segment} (h : 1/100000 ≤ seg.timelineDuration) :
    segmentLength seg = seg.timelineDuration := max_eq_right h

lemma sourceLength_eq {seg : Segment} (h : 1/100000 ≤ seg.endTime - seg.start) :
    sourceLength seg = seg.endTime - seg.start := max_eq_right h

lemma clamp_of_mem {v lo hi : ℚ} (h1 : lo ≤ v) (h2 : v ≤ hi) : clamp v lo hi = v := by
  unfold clamp
  rw [min_eq_right h2, max_eq_right h1]

lemma sub_self_div_self_eq_one {a : ℚ} (h : 0 < a) : a / a = 1 := div_self (ne_of_gt h)

/-- C3 (amended): under the segment invariant *and* away from the two
`0.00001` floors (`sourceLength` and `segmentLength` clamp tiny values up
to `0.00001`), the per-segment timeline→source map hits `start` at offset
0 and `end` at offset `timelineDuration`, exactly.  The offset-0 endpoint
needs no side condition at all. -/
theorem timeMapping_endpoints (seg : Segment)
    (hs0 : 0 ≤ seg.start) (hlt : seg.start < seg.endTime)
    (hdpos : 0 < seg.timelineDuration)
    (hse : 1/100000 ≤ seg.endTime - seg.start)
    (hdur : 1/100000 ≤ seg.timelineDuration) :
    segMap seg 0 = seg.start ∧ segMap seg seg.timelineDuration = seg.endTime := by
  have hlen : segmentLength seg = seg.timelineDuration := segmentLength_eq hdur
  have hsrc : sourceLength seg = seg.endTime - seg.start := sourceLength_eq hse
  have hlenpos : 0 < segmentLength seg := segmentLength_pos seg
  constructor
  · unfold segMap
    dsimp only
    rw [clamp_of_mem le_rfl (le_of_lt hlenpos), if_neg (not_le_of_lt hlenpos)]
    simp
  · unfold segMap
    dsimp only
    rw [hlen, clamp_of_mem (le_of_lt hdpos) le_rfl, if_neg (not_le_of_lt hdpos),
      sub_self_div_self_eq_one hdpos, hsrc]
    ring

/-- C3 witness: the amended endpoint theorem at the concrete segment
`start = 0, end = 1, timelineDuration = 2`. -/
theorem timeMapping_endpoints_witness :
    segMap { sourceId := none, start := 0, endTime := 1, timelineDuration := 2 } 0 = 0 ∧
    segMap { sourceId := none, start := 0, endTime := 1, timelineDuration := 2 } 2 = 1 :=
  timeMapping_endpoints _ (by norm_num) (by norm_num) (by norm_num) (by norm_num) (by norm_num)

/-- The tiny segment refuting C3 as stated: `end - start = 0.000005` is
below the `0.00001` floor of `sourceLength`. -/
def cexTinySegment : Segment :=
  { sourceId := none, start := 0, endTime := 1/200000, timelineDuration := 1 }

/-- C3 counterexample: `cexTinySegment` satisfies the claim's segment
invariant (`0 ≤ start < end ≤ 1 = source.duration`, `timelineDuration =
1 > 0`), but the mapping at offset `timelineDuration` returns
`0.00001 ≠ end = 0.000005`: the `sourceLength` floor overshoots the
segment's end. -/
theorem timeMapping_tiny_segment_example :
    (0 ≤ cexTinySegment.start ∧ cexTinySegment.start < cexTinySegment.endTime ∧
      cexTinySegment.endTime ≤ 1 ∧ 0 < cexTinySegment.timelineDuration) ∧
    segMap cexTinySegment cexTinySegment.timelineDuration = 1/100000 ∧
    cexTinySegment.endTime = 1/200000 ∧ (1/100000 : ℚ) ≠ 1/200000 := by
  refine ⟨by norm_num [cexTinySegment], ?_, by norm_num [cexTinySegment], by norm_num⟩
  norm_num [cexTinySegment, segMap, segmentLength, sourceLength, clamp]

/-! ## Split/heal machinery -/

/-- The `ratio` a split computes for a segment whose cumulative timeline
range starts at `cbase` (`part_000` line 84). -/
def ratioAt (t cbase : ℚ) (seg : Segment) : ℚ := clamp ((t - cbase) / segmentLength seg) 0 1

/-- The source split point for a segment whose cumulative timeline range
starts at `cbase` (`part_000` line 85). -/
def sstAt (t cbase : ℚ) (seg : Segment) : ℚ := seg.start + sourceLength seg * ratioAt t cbase seg

lemma cumLen_zero (segs : List Segment) : cumLen segs 0 = 0 := rfl

lemma cumLen_succ_cons (seg : Segment) (rest : List Segment) (k : ℕ) :
    cumLen (seg :: rest) (k + 1) = segmentLength seg + cumLen rest k := by
  simp [cumLen]

lemma cumLen_nonneg (segs : List Segment) (k : ℕ) : 0 ≤ cumLen segs k := by
  refine List.sum_nonneg ?_
  intro x hx
  obtain ⟨seg, _, rfl⟩ := List.mem_map.mp hx
  exact le_of_lt (segmentLength_pos seg)

lemma totalLength_eq_cumLen (segs : List Segment) : totalLength segs = cumLen segs segs.length := by
  simp [totalLength, cumLen]

lemma cumLen_add_le_total {segs : List Segment} {i : ℕ} {seg : Segment}
    (hget : segs.get? i = some seg) :
    cumLen segs i + segmentLength seg ≤ totalLength segs := by
  induction segs generalizing i with
  | nil => simp at hget
  | cons s rest ih =>
    cases i with
    | zero =>
      simp only [List.get?_cons_zero, Option.some_inj] at hget
      subst hget
      have h0 : 0 ≤ (List.map segmentLength rest).sum := by
        refine List.sum_nonneg ?_
        intro x hx
        obtain ⟨seg', _, rfl⟩ := List.mem_map.mp hx
        exact le_of_lt (segmentLength_pos seg')
      simp only [cumLen_zero, totalLength, List.map_cons, List.sum_cons]
      linarith
    | succ j =>
      simp only [List.get?_cons_succ] at hget
      have := ih hget
      simp only [cumLen_succ_cons, totalLength, List.map_cons, List.sum_cons]
      simp only [totalLength] at this
      linarith

lemma splitGo_none_of_le {t cursor : ℚ} (segs : List Segment) (h : t ≤ cursor) :
    splitGo t cursor segs = none := by
  induction segs generalizing cursor with
  | nil => rfl
  | cons seg rest ih =>
    unfold splitGo
    dsimp only
    rw [if_neg (by rintro ⟨h1, _⟩; exact absurd h (not_le_of_lt h1)),
      ih (le_trans h (by linarith [segmentLength_pos seg]))]
    rfl

lemma splitGo_none_boundary {t cursor : ℚ} (segs : List Segment) (k : ℕ)
    (hk : k ≤ segs.length) (h : t = cursor + cumLen segs k) :
    splitGo t cursor segs = none := by
  induction segs generalizing cursor k with
  | nil => rfl
  | cons seg rest ih =>
    cases k with
    | zero =>
      exact splitGo_none_of_le _ (by rw [h, cumLen_zero, add_zero])
    | succ j =>
      have hj : j ≤ rest.length := by simpa using hk
      rw [cumLen_succ_cons] at h
      unfold splitGo
      dsimp only
      rw [if_neg, ih j hj (by rw [h]; ring)]
      · rfl
      · rintro ⟨_, h2⟩
        have : 0 ≤ cumLen rest j := cumLen_nonneg rest j
        rw [h] at h2
        linarith

/-- The one segment whose open cumulative range strictly contains `t`
decides the outcome of `splitGo`: decline when the source split point is
within `0.01` of either source boundary (note `≤`, not `<`), else
replace that segment by its two pieces. -/
lemma splitGo_at {t cursor : ℚ} (segs : List Segment) (i : ℕ) (seg : Segment)
    (hget : segs.get? i = some seg)
    (h1 : cursor + cumLen segs i < t)
    (h2 : t < cursor + cumLen segs i + segmentLength seg) :
    splitGo t cursor segs =
      if sstAt t (cursor + cumLen segs i) seg ≤ seg.start + 1/100 ∨
         seg.endTime - 1/100 ≤ sstAt t (cursor + cumLen segs i) seg then none
      else some (segs.take i
        ++ mkLeft seg (sstAt t (cursor + cumLen segs i) seg) (ratioAt t (cursor + cumLen segs i) seg)
        :: mkRight seg (sstAt t (cursor + cumLen segs i) seg) (ratioAt t (cursor + cumLen segs i) seg)
        :: segs.drop (i + 1)) := by
  induction segs generalizing cursor i with
  | nil => simp at hget
  | cons s rest ih =>
    cases i with
    | zero =>
      simp only [List.get?_cons_zero, Option.some_inj] at hget
      subst hget
      rw [cumLen_zero, add_zero] at h1 h2 ⊢
      unfold splitGo
      dsimp only
      rw [if_pos ⟨h1, h2⟩]
      simp [sstAt, ratioAt]
    | succ j =>
      simp only [List.get?_cons_succ] at hget
      rw [cumLen_succ_cons] at h1 h2 ⊢
      have h1' : (cursor + segmentLength s) + cumLen rest j < t := by linarith
      have h2' : t < (cursor + segmentLength s) + cumLen rest j + segmentLength seg := by linarith
      unfold splitGo
      dsimp only
      rw [if_neg, ih j hget h1' h2']
      · have harg : cursor + (segmentLength s + cumLen rest j) =
            cursor + segmentLength s + cumLen rest j := by ring
        rw [harg]
        by_cases hguard : sstAt t (cursor + segmentLength s + cumLen rest j) seg ≤ seg.start + 1/100 ∨
            seg.endTime - 1/100 ≤ sstAt t (cursor + segmentLength s + cumLen rest j) seg
        · rw [if_pos hguard, if_pos hguard]
          rfl
        · rw [if_neg hguard, if_neg hguard]
          simp [List.take_succ_cons, List.drop_succ_cons]
      · rintro ⟨_, hlt⟩
        have hc : 0 ≤ cumLen rest j := cumLen_nonneg rest j
        have hp : 0 < segmentLength seg := segmentLength_pos seg
        linarith

lemma splitGo_ne_nil {t cursor : ℚ} {segs out : List Segment}
    (h : splitGo t cursor segs = some out) : out ≠ [] := by
  induction segs generalizing cursor with
  | nil => simp [splitGo] at h
  | cons seg rest ih =>
    unfold splitGo at h
    dsimp only at h
    split at h
    · split at h
      · exact absurd h (by simp)
      · have heq := Option.some_inj.mp h
        subst heq
        simp
    · obtain ⟨out', hout', heq⟩ := Option.map_eq_some'.mp h
      subst heq
      simp

/-- C5 (amended): `splitAtPlayhead` declines — returns `none` with the
model untouched — when `t ≤ 0`, when `t ≥ composedDuration`, when `t`
lands exactly on a cumulative segment boundary, and when the source
split point is within 0.01 of either source boundary **inclusive**
(i.e. a resulting source sub-range of length exactly 0.01 is also
declined; the claim's strict "< 0.01" is off by the boundary case).  In
every other case with some segment's open cumulative range containing
`t`, it replaces exactly that segment by two segments that share its
`sourceId` and whose source ranges are contiguous at the split point. -/
theorem splitAtPlayhead_spec (m : Model)
    (hcd : m.composedDuration = totalLength m.segments) :
    (m.playheadTime ≤ 0 → splitAtPlayhead m = none)
  ∧ (m.composedDuration ≤ m.playheadTime → splitAtPlayhead m = none)
  ∧ (∀ k, k ≤ m.segments.length → m.playheadTime = cumLen m.segments k →
       splitAtPlayhead m = none)
  ∧ (∀ i seg, m.segments.get? i = some seg →
       cumLen m.segments i < m.playheadTime →
       m.playheadTime < cumLen m.segments i + segmentLength seg →
       ((sstAt m.playheadTime (cumLen m.segments i) seg ≤ seg.start + 1/100 ∨
           seg.endTime - 1/100 ≤ sstAt m.playheadTime (cumLen m.segments i) seg) →
          splitAtPlayhead m = none)
       ∧ (seg.start + 1/100 < sstAt m.playheadTime (cumLen m.segments i) seg →
          sstAt m.playheadTime (cumLen m.segments i) seg < seg.endTime - 1/100 →
            splitAtPlayhead m =
              some (m.segments.take i
                ++ mkLeft seg (sstAt m.playheadTime (cumLen m.segments i) seg)
                     (ratioAt m.playheadTime (cumLen m.segments i) seg)
                :: mkRight seg (sstAt m.playheadTime (cumLen m.segments i) seg)
                     (ratioAt m.playheadTime (cumLen m.segments i) seg)
                :: m.segments.drop (i + 1))
            ∧ (mkLeft seg (sstAt m.playheadTime (cumLen m.segments i) seg)
                 (ratioAt m.playheadTime (cumLen m.segments i) seg)).sourceId = seg.sourceId
            ∧ (mkRight seg (sstAt m.playheadTime (cumLen m.segments i) seg)
                 (ratioAt m.playheadTime (cumLen m.segments i) seg)).sourceId = seg.sourceId
            ∧ (mkLeft seg (sstAt m.playheadTime (cumLen m.segments i) seg)
                 (ratioAt m.playheadTime (cumLen m.segments i) seg)).endTime =
                sstAt m.playheadTime (cumLen m.segments i) seg
            ∧ (mkRight seg (sstAt m.playheadTime (cumLen m.segments i) seg)
                 (ratioAt m.playheadTime (cumLen m.segments i) seg)).start =
                sstAt m.playheadTime (cumLen m.segments i) seg)) := by
  refine ⟨?_, ?_, ?_, ?_⟩
  · intro h
    unfold splitAtPlayhead
    rw [if_pos (Or.inr (Or.inl h))]
  · intro h
    unfold splitAtPlayhead
    rw [if_pos (Or.inr (Or.inr h))]
  · intro k hk ht
    unfold splitAtPlayhead
    split
    · rfl
    · exact splitGo_none_boundary _ k hk (by rw [zero_add]; exact ht)
  · intro i seg hget h1 h2
    have hne : ¬ m.segments.isEmpty = true := by
      cases hs : m.segments with
      | nil => rw [hs] at hget; simp at hget
      | cons a l => simp [hs]
    have ht0 : 0 < m.playheadTime := lt_of_le_of_lt (cumLen_nonneg _ _) h1
    have htc : m.playheadTime < m.composedDuration := by
      rw [hcd]
      exact lt_of_lt_of_le h2 (cumLen_add_le_total hget)
    have hguardfalse : ¬ (m.segments.isEmpty = true ∨ m.playheadTime ≤ 0 ∨
        m.composedDuration ≤ m.playheadTime) := by
      rintro (h | h | h)
      · exact hne h
      · linarith
      · linarith
    have hsplit := splitGo_at m.segments i seg hget
      (by rw [zero_add]; exact h1) (by rw [zero_add]; exact h2)
    rw [zero_add] at hsplit
    constructor
    · intro hg
      unfold splitAtPlayhead
      rw [if_neg hguardfalse, hsplit, if_pos hg]
    · intro hg1 hg2
      have hg : ¬ (sstAt m.playheadTime (cumLen m.segments i) seg ≤ seg.start + 1/100 ∨
          seg.endTime - 1/100 ≤ sstAt m.playheadTime (cumLen m.segments i) seg) := by
        rintro (h | h)
        · linarith
        · linarith
      refine ⟨?_, rfl, rfl, rfl, rfl⟩
      unfold splitAtPlayhead
      rw [if_neg hguardfalse, hsplit, if_neg hg]

/-- A model on which `splitAtPlayhead` declines though the claim's stated
decline conditions all fail: one segment `[0, 1]` at unit speed, playhead
at `t = 0.01`, so the left source sub-range is exactly `0.01` long. -/
def cexThresholdModel : Model :=
  { segments := [{ sourceId := none, start := 0, endTime := 1, timelineDuration := 1 }],
    playheadTime := 1/100, composedDuration := 1, events := [], sources := [],
    clipboardSegment := none }

/-- C5 counterexample: at `t = 0.01` on `cexThresholdModel`, `t` is
neither 0 nor `composedDuration` nor a segment boundary (the boundaries
are `cumLen 0 = 0` and `cumLen 1 = 1`), the source split point is `0.01`,
and both resulting source sub-ranges (`0.01` and `0.99`) fail to be
`< 0.01` — yet the code declines (its guard uses `<=`). -/
theorem split_exact_threshold_example :
    splitAtPlayhead cexThresholdModel = none
  ∧ 0 < cexThresholdModel.playheadTime
  ∧ cexThresholdModel.playheadTime < cexThresholdModel.composedDuration
  ∧ cexThresholdModel.playheadTime ≠ cumLen cexThresholdModel.segments 0
  ∧ cexThresholdModel.playheadTime ≠ cumLen cexThresholdModel.segments 1
  ∧ sstAt cexThresholdModel.playheadTime 0
      { sourceId := none, start := 0, endTime := 1, timelineDuration := 1 } = 1/100
  ∧ ¬ ((1/100 : ℚ) - 0 < 1/100)
  ∧ ¬ ((1 : ℚ) - 1/100 < 1/100) := by
  refine ⟨?_, by norm_num [cexThresholdModel], by norm_num [cexThresholdModel], ?_, ?_, ?_,
    by norm_num, by norm_num⟩
  · norm_num [cexThresholdModel, splitAtPlayhead, splitGo, segmentLength, sourceLength,
      clamp, max_def, min_def]
  · norm_num [cexThresholdModel, cumLen]
  · norm_num [cexThresholdModel, cumLen, segmentLength, max_def]
  · norm_num [cexThresholdModel, sstAt, ratioAt, segmentLength, sourceLength, clamp,
      max_def, min_def]

/-- C5 witness: the amended characterization applied to
`cexThresholdModel` with the playhead moved to 0 — the `t ≤ 0`
decline case. -/
theorem splitAtPlayhead_spec_witness :
    splitAtPlayhead { cexThresholdModel with playheadTime := 0 } = none :=
  (splitAtPlayhead_spec { cexThresholdModel with playheadTime := 0 }
    (by norm_num [cexThresholdModel, totalLength, segmentLength, max_def])).1 le_rfl

/-- C4 (amended): splitting at a playhead `t` strictly inside segment
`i`'s cumulative range and immediately healing the two resulting pieces
yields one segment in the original position whose `start` and `end`
equal the original's exactly; its `timelineDuration` equals the
original's within `1e-3` **provided neither piece's timeline duration
was clamped up by the `0.01` floor of the split** (then the durations
agree within the `0.00001` `segmentLength` floor); with the clamp
engaged the healed duration can exceed the original by almost `0.01 +
0.01`, beyond the claimed `1e-3` (see the counterexample). -/
theorem split_heal_roundtrip (m : Model) (out : List Segment) (i : ℕ) (seg : Segment)
    (hdurpos : 0 < seg.timelineDuration)
    (hsplit : splitAtPlayhead m = some out)
    (hget : m.segments.get? i = some seg)
    (h1 : cumLen m.segments i < m.playheadTime)
    (h2 : m.playheadTime < cumLen m.segments i + segmentLength seg) :
    ∃ merged,
      healSelectedClips out i (i + 1) =
        some (m.segments.take i ++ merged :: m.segments.drop (i + 1))
      ∧ merged.start = seg.start
      ∧ merged.endTime = seg.endTime
      ∧ (1/100 ≤ segmentLength seg * ratioAt m.playheadTime (cumLen m.segments i) seg →
         1/100 ≤ segmentLength seg * (1 - ratioAt m.playheadTime (cumLen m.segments i) seg) →
         |merged.timelineDuration - seg.timelineDuration| ≤ 1/1000) := by
  have hi : i < m.segments.length := by
    by_contra hc
    rw [List.get?_eq_none.mpr (le_of_not_lt hc)] at hget
    simp at hget
  set t := m.playheadTime with ht
  set sst := sstAt t (cumLen m.segments i) seg with hsst
  set ratio := ratioAt t (cumLen m.segments i) seg with hratio
  set L := mkLeft seg sst ratio with hL
  set R := mkRight seg sst ratio with hR
  -- extract the shape of `out` from the success of the split
  have hshape : out = m.segments.take i ++ L :: R :: m.segments.drop (i + 1) := by
    unfold splitAtPlayhead at hsplit
    split at hsplit
    · exact absurd hsplit (by simp)
    · have hgo := splitGo_at m.segments i seg hget
        (by rw [zero_add]; exact h1) (by rw [zero_add]; exact h2)
      rw [zero_add] at hgo
      rw [hgo] at hsplit
      split at hsplit
      · exact absurd hsplit (by simp)
      · exact (Option.some_inj.mp hsplit).symm
  have hlen_take : (m.segments.take i).length = i := by
    rw [List.length_take]
    omega
  have hgetL : out.get? i = some L := by
    rw [hshape, List.get?_append_right (le_of_eq hlen_take)]
    simp [hlen_take]
  have hgetR : out.get? (i + 1) = some R := by
    rw [hshape, List.get?_append_right (by omega)]
    simp [hlen_take]
  have houtlen : out.length = m.segments.length + 1 := by
    rw [hshape]
    simp only [List.length_append, List.length_cons, List.length_drop, hlen_take]
    omega
  refine ⟨mkHealed L R, ?_, rfl, rfl, ?_⟩
  · unfold healSelectedClips
    rw [if_pos ⟨by omega, by omega⟩]
    dsimp only
    rw [min_eq_left (Nat.le_succ i), max_eq_right (Nat.le_succ i), if_neg (by simp),
      hgetL, hgetR]
    dsimp only
    have hsrcid : ¬ L.sourceId ≠ R.sourceId := by simp [hL, hR, mkLeft, mkRight]
    have habs : |L.endTime - R.start| ≤ 1/50 := by
      simp [hL, hR, mkLeft, mkRight]
    rw [if_neg hsrcid, if_neg (not_not_intro habs)]
    have htake : out.take i = m.segments.take i := by
      rw [hshape, List.take_append_of_le_length (le_of_eq hlen_take.symm)]
      exact List.take_of_length_le (le_of_eq hlen_take)
    have hdrop : out.drop (i + 2) = m.segments.drop (i + 1) := by
      rw [hshape, List.drop_append_eq_append_drop,
        List.drop_eq_nil_of_le (by omega), hlen_take]
      simp
    rw [htake, hdrop]
  · intro hfloor1 hfloor2
    have hLdur : segmentLength L = segmentLength seg * ratio := by
      rw [hL]
      unfold segmentLength mkLeft
      dsimp only
      rw [max_eq_right hfloor1, max_eq_right (le_trans (by norm_num) hfloor1)]
      rfl
    have hRdur : segmentLength R = segmentLength seg * (1 - ratio) := by
      rw [hR]
      unfold segmentLength mkRight
      dsimp only
      rw [max_eq_right hfloor2, max_eq_right (le_trans (by norm_num) hfloor2)]
      rfl
    have hsum : (mkHealed L R).timelineDuration = segmentLength seg := by
      unfold mkHealed
      dsimp only
      rw [hLdur, hRdur]
      ring
    rw [hsum]
    unfold segmentLength
    by_cases hbig : 1/100000 ≤ seg.timelineDuration
    · rw [max_eq_right hbig]
      simp
    · rw [max_eq_left (le_of_lt (lt_of_not_le hbig))]
      rw [abs_of_nonneg (by linarith [lt_of_not_le hbig])]
      linarith [lt_of_not_le hbig, hdurpos]

/-- The model refuting C4 as stated: one segment covering 100 s of
source played in 0.05 s of timeline, split at `t = 0.00005` (ratio
1/1000, so the left piece's natural timeline duration `0.00005` is
clamped up to `0.01`). -/
def cexSplitHealModel : Model :=
  { segments := [{ sourceId := none, start := 0, endTime := 100, timelineDuration := 1/20 }],
    playheadTime := 1/20000, composedDuration := 1/20, events := [], sources := [],
    clipboardSegment := none }

/-- C4 counterexample: on `cexSplitHealModel` the split succeeds (the
source split point `0.1` clears both `0.01` source guards), healing the
two pieces succeeds and restores `start = 0` and `end = 100` exactly,
but the healed `timelineDuration` is `0.05995` against the original
`0.05`: off by `0.00995 > 1e-3`, because the left piece's duration was
floored at `0.01`. -/
theorem split_heal_duration_example :
    (Option.bind (splitAtPlayhead cexSplitHealModel)
        (fun segs => healSelectedClips segs 0 1)) =
      some [{ sourceId := none, start := 0, endTime := 100, timelineDuration := 1199/20000 }]
  ∧ ¬ |(1199/20000 : ℚ) - 1/20| ≤ 1/1000 := by
  constructor
  · norm_num [cexSplitHealModel, splitAtPlayhead, splitGo, healSelectedClips, mkLeft, mkRight,
      mkHealed, segmentLength, sourceLength, clamp, max_def, min_def]
  · rw [abs_of_nonneg (by norm_num)]
    norm_num

/-- The concrete data for the C4 witness: a one-segment model `[0, 1]`
at unit speed, split at `t = 1/2`. -/
def wSeg : Segment := { sourceId := none, start := 0, endTime := 1, timelineDuration := 1 }

/-- The C4 witness model. -/
def wModel : Model :=
  { segments := [wSeg], playheadTime := 1/2, composedDuration := 1, events := [],
    sources := [], clipboardSegment := none }

/-- The two pieces the witness split produces. -/
def wOut : List Segment :=
  [mkLeft wSeg (sstAt (1/2) (cumLen [wSeg] 0) wSeg) (ratioAt (1/2) (cumLen [wSeg] 0) wSeg),
   mkRight wSeg (sstAt (1/2) (cumLen [wSeg] 0) wSeg) (ratioAt (1/2) (cumLen [wSeg] 0) wSeg)]

/-- C4 witness: the amended round-trip theorem applied to `wModel` (both
pieces well above the `0.01` floor). -/
theorem split_heal_roundtrip_witness :
    ∃ merged,
      healSelectedClips wOut 0 1 = some ([wSeg].take 0 ++ merged :: [wSeg].drop 1)
      ∧ merged.start = wSeg.start
      ∧ merged.endTime = wSeg.endTime
      ∧ (1/100 ≤ segmentLength wSeg * ratioAt (1/2) (cumLen [wSeg] 0) wSeg →
         1/100 ≤ segmentLength wSeg * (1 - ratioAt (1/2) (cumLen [wSeg] 0) wSeg) →
         |merged.timelineDuration - wSeg.timelineDuration| ≤ 1/1000) :=
  split_heal_roundtrip wModel wOut 0 wSeg
    (by norm_num [wSeg])
    (by norm_num [wModel, wOut, wSeg, splitAtPlayhead, splitGo, sstAt, ratioAt,
        segmentLength, sourceLength, clamp, cumLen, max_def, min_def, mkLeft, mkRight])
    (by simp [wModel])
    (by norm_num [wModel, wSeg, cumLen])
    (by norm_num [wModel, wSeg, cumLen, segmentLength, max_def])

/-- C6: on a one-segment timeline, `cut` and `delete` decline (and the
`Option` encoding means the model is untouched — the JS guard
`segments.length <= 1` returns before any mutation); and no modelled
edit operation — cut, delete, paste, split, heal — ever returns an empty
segment list. -/
theorem cut_delete_last_segment :
    (∀ (m : Model) (s : Segment) (i : ℕ), m.segments = [s] → cutAction m i = none)
  ∧ (∀ (m : Model) (s : Segment) (i : ℕ), m.segments = [s] → deleteAction m i = none)
  ∧ (∀ (m : Model) (i : ℕ) (out : List Segment), cutAction m i = some out → out ≠ [])
  ∧ (∀ (m : Model) (i : ℕ) (out : List Segment), deleteAction m i = some out → out ≠ [])
  ∧ (∀ (m : Model) (out : List Segment), splitAtPlayhead m = some out → out ≠ [])
  ∧ (∀ (segs : List Segment) (i1 i2 : ℕ) (out : List Segment),
       healSelectedClips segs i1 i2 = some out → out ≠ [])
  ∧ (∀ (m : Model) (i : ℕ) (after : Bool) (out : List Segment),
       pasteAction m i after = some out → out ≠ []) := by
  refine ⟨?_, ?_, ?_, ?_, ?_, ?_, ?_⟩
  · intro m s i hseg
    unfold cutAction
    rw [hseg]
    split
    · rw [if_pos (by simp)]
    · rfl
  · intro m s i hseg
    unfold deleteAction
    rw [hseg]
    split
    · rw [if_pos (by simp)]
    · rfl
  · intro m i out h
    unfold cutAction at h
    split at h
    · split at h
      · exact absurd h (by simp)
      · have := Option.some_inj.mp h
        subst this
        intro hnil
        have hlen := congrArg List.length hnil
        simp only [List.length_append, List.length_take, List.length_drop,
          List.length_nil] at hlen
        omega
    · exact absurd h (by simp)
  · intro m i out h
    unfold deleteAction at h
    split at h
    · split at h
      · exact absurd h (by simp)
      · have := Option.some_inj.mp h
        subst this
        intro hnil
        have hlen := congrArg List.length hnil
        simp only [List.length_append, List.length_take, List.length_drop,
          List.length_nil] at hlen
        omega
    · exact absurd h (by simp)
  · intro m out h
    unfold splitAtPlayhead at h
    split at h
    · exact absurd h (by simp)
    · exact splitGo_ne_nil h
  · intro segs i1 i2 out h
    unfold healSelectedClips at h
    split at h
    · dsimp only at h
      split at h
      · exact absurd h (by simp)
      · split at h
        · split at h
          · exact absurd h (by simp)
          · split at h
            · exact absurd h (by simp)
            · have := Option.some_inj.mp h
              subst this
              simp
        · exact absurd h (by simp)
    · exact absurd h (by simp)
  · intro m i after out h
    unfold pasteAction at h
    split at h
    · split at h
      · exact absurd h (by simp)
      · have := Option.some_inj.mp h
        subst this
        simp
    · exact absurd h (by simp)

/-- A concrete one-segment timeline for the C6 witness. -/
def wSingleModel : Model :=
  { segments := [wSeg], playheadTime := 0, composedDuration := 1,
    events := [], sources := [], clipboardSegment := none }

/-- C6 witness: `cut` on a concrete one-segment timeline declines. -/
theorem cut_delete_last_segment_witness : cutAction wSingleModel 0 = none :=
  cut_delete_last_segment.1 wSingleModel wSeg 0 rfl

/-! ## C1: time normalization monotonicity -/

lemma normGo_delta_props (l : List RawEv) :
    ∀ (cursor : ℚ) (prev : Option ℚ),
      List.Sorted (· ≤ ·) (evTimes (normGo true cursor prev l)) ∧
      ∀ x ∈ evTimes (normGo true cursor prev l), cursor ≤ x := by
  induction l with
  | nil =>
    intro cursor prev
    simp [normGo, evTimes]
  | cons e rest ih =>
    intro cursor prev
    cases e with
    | bad => exact ih cursor prev
    | ev raw k d =>
      have hmax : cursor ≤ cursor + max 0 raw := by
        have h0 : (0 : ℚ) ≤ max 0 raw := le_max_left 0 raw
        linarith
      obtain ⟨hs, hb⟩ := ih (cursor + max 0 raw) (some raw)
      have hred : normGo true cursor prev (.ev raw k d :: rest) =
          (cursor + max 0 raw, k, d) :: normGo true (cursor + max 0 raw) (some raw) rest := by
        simp [normGo]
      constructor
      · rw [hred, evTimes, List.map_cons, List.sorted_cons]
        exact ⟨fun b hb' => hb b hb', hs⟩
      · intro x hx
        rw [hred, evTimes, List.map_cons] at hx
        rcases List.mem_cons.mp hx with h | h
        · rw [h]
          exact hmax
        · exact le_trans hmax (hb x h)

lemma normGo_abs_eq (l : List RawEv) :
    ∀ (cursor : ℚ) (prev : Option ℚ),
      (∀ p, prev = some p → ∀ x ∈ validRawTimes l, p ≤ x) →
      List.Sorted (· ≤ ·) (validRawTimes l) →
      evTimes (normGo false cursor prev l) = validRawTimes l := by
  induction l with
  | nil =>
    intro cursor prev _ _
    simp [normGo, evTimes, validRawTimes]
  | cons e rest ih =>
    intro cursor prev hprev hsorted
    cases e with
    | bad =>
      rw [show validRawTimes (.bad :: rest) = validRawTimes rest from rfl] at hsorted ⊢
      rw [show normGo false cursor prev (.bad :: rest) = normGo false cursor prev rest from rfl]
      exact ih cursor prev (fun p hp x hx => hprev p hp x hx) hsorted
    | ev raw k d =>
      rw [show validRawTimes (.ev raw k d :: rest) = raw :: validRawTimes rest from rfl]
        at hsorted ⊢
      rw [List.sorted_cons] at hsorted
      obtain ⟨hall, hsrest⟩ := hsorted
      have hfalse : rawLtPrev raw prev = false := by
        cases prev with
        | none => rfl
        | some p =>
          have hle : p ≤ raw := hprev p rfl raw (List.mem_cons_self _ _)
          simp [rawLtPrev, not_lt_of_le hle]
      have hred : normGo false cursor prev (.ev raw k d :: rest) =
          (raw, k, d) :: normGo false raw (some raw) rest := by
        simp [normGo, hfalse]
      rw [hred, evTimes, List.map_cons]
      have hrest := ih raw (some raw)
        (fun p hp x hx => by
          have hpr := Option.some_inj.mp hp
          subst hpr
          exact hall x hx)
        hsrest
      rw [show (((raw, k, d) : ℚ × String × String).1) = raw from rfl]
      rw [show List.map (fun x => x.1) (normGo false raw (some raw) rest) =
        evTimes (normGo false raw (some raw) rest) from rfl, hrest]

/-- C1 (amended): with header version ≥ 3 (delta mode) the normalized
event times are always non-decreasing; with an older version the
normalization returns exactly the raw times whenever those are already
non-decreasing (every event takes the absolute branch) — but, as the
counterexample shows, the legacy delta heuristic can otherwise emit a
time below an earlier normalized time, so monotonicity does not hold
unconditionally as claimed. -/
theorem normalizeEvents_time_monotone (version : ℚ) (events : List RawEv) :
    (3 ≤ version → List.Sorted (· ≤ ·) (evTimes (normalizeEvents version events)))
  ∧ (version < 3 → List.Sorted (· ≤ ·) (validRawTimes events) →
      evTimes (normalizeEvents version events) = validRawTimes events ∧
      List.Sorted (· ≤ ·) (evTimes (normalizeEvents version events))) := by
  constructor
  · intro h
    unfold normalizeEvents
    rw [decide_eq_true h]
    exact (normGo_delta_props events 0 none).1
  · intro h hsorted
    unfold normalizeEvents
    rw [decide_eq_false (not_le_of_lt h)]
    have heq := normGo_abs_eq events 0 none (fun p hp => by simp at hp) hsorted
    exact ⟨heq, heq ▸ hsorted⟩

/-- C1 counterexample: version 2 (absolute mode with the legacy
heuristic), raw times `[1, -1, 0]` — a valid parse input, e.g.
`{"version":2,"events":[[1,"o","a"],[-1,"o","b"],[0,"o","c"]]}`.  The
`-1` is treated as a delta (normalized to 1), then `0 ≥ -1` is taken
absolute, producing `[1, 1, 0]`: not non-decreasing. -/
theorem normalizeEvents_decreasing_example :
    evTimes (normalizeEvents 2
        [RawEv.ev 1 "o" "a", RawEv.ev (-1) "o" "b", RawEv.ev 0 "o" "c"]) = [1, 1, 0]
  ∧ ¬ List.Sorted (· ≤ ·) ([1, 1, 0] : List ℚ) := by
  constructor
  · norm_num [normalizeEvents, normGo, rawLtPrev, evTimes, max_def]
  · intro h
    rw [List.sorted_cons, List.sorted_cons] at h
    have := h.2.1 0 (by simp)
    norm_num at this

/-- C1 witness: delta mode (version 3) on a concrete event list. -/
theorem normalizeEvents_time_monotone_witness :
    List.Sorted (· ≤ ·) (evTimes (normalizeEvents 3
      [RawEv.ev 1 "o" "a", RawEv.bad, RawEv.ev 2 "o" "b"])) :=
  (normalizeEvents_time_monotone 3
    [RawEv.ev 1 "o" "a", RawEv.bad, RawEv.ev 2 "o" "b"]).1 le_rfl

/-! ## C2: export builder monotonicity -/

lemma round6_mono {a b : ℚ} (h : a ≤ b) : round6 a ≤ round6 b := by
  unfold round6
  have hr : round (a * 1000000) ≤ round (b * 1000000) := by
    rw [round_eq, round_eq]
    exact Int.floor_le_floor (by linarith)
  rw [div_le_div_iff_of_pos_right (by norm_num : (0:ℚ) < 1000000)]
  exact_mod_cast hr

lemma mem_validRawTimes {u : ℚ} {k d : String} {evs : List RawEv}
    (h : RawEv.ev u k d ∈ evs) : u ∈ validRawTimes evs := by
  induction evs with
  | nil => simp at h
  | cons e rest ih =>
    rcases List.mem_cons.mp h with h' | h'
    · rw [← h']
      simp [validRawTimes]
    · cases e with
      | bad => simpa [validRawTimes] using ih h'
      | ev t k' d' => simp [validRawTimes, ih h']

lemma segEvTime_mono (seg : Segment) (cursor : ℚ) {u v : ℚ} (huv : u ≤ v) :
    segEvTime seg cursor u ≤ segEvTime seg cursor v := by
  unfold segEvTime
  rw [if_neg (not_le_of_lt (sourceLength_pos seg)),
    if_neg (not_le_of_lt (sourceLength_pos seg))]
  refine round6_mono ?_
  have hdiv : (u - seg.start) / sourceLength seg ≤ (v - seg.start) / sourceLength seg := by
    rw [div_le_div_iff_of_pos_right (sourceLength_pos seg)]
    linarith
  have := mul_le_mul_of_nonneg_right hdiv (le_of_lt (segmentLength_pos seg))
  linarith

lemma segEvTime_bounds (seg : Segment) (cursor : ℚ) {u : ℚ}
    (hu1 : seg.start ≤ u) (hu2 : u ≤ seg.endTime) :
    round6 cursor ≤ segEvTime seg cursor u ∧
    segEvTime seg cursor u ≤ round6 (cursor + segmentLength seg) := by
  have hsrc : 0 < sourceLength seg := sourceLength_pos seg
  have hlen : 0 < segmentLength seg := segmentLength_pos seg
  have hratio0 : 0 ≤ (u - seg.start) / sourceLength seg :=
    div_nonneg (by linarith) (le_of_lt hsrc)
  have hratio1 : (u - seg.start) / sourceLength seg ≤ 1 := by
    rw [div_le_one hsrc]
    have : seg.endTime - seg.start ≤ sourceLength seg := le_max_right _ _
    linarith
  unfold segEvTime
  rw [if_neg (not_le_of_lt hsrc)]
  constructor
  · refine round6_mono ?_
    have := mul_nonneg hratio0 (le_of_lt hlen)
    linarith
  · refine round6_mono ?_
    have := mul_le_mul_of_nonneg_right hratio1 (le_of_lt hlen)
    linarith

lemma mem_evTimes_mapSegEvents {seg : Segment} {cursor x : ℚ} {evs : List RawEv}
    (h : x ∈ evTimes (mapSegEvents seg cursor evs)) :
    ∃ u ∈ validRawTimes evs, (seg.start ≤ u ∧ u ≤ seg.endTime) ∧ x = segEvTime seg cursor u := by
  unfold evTimes mapSegEvents at h
  obtain ⟨triple, htriple, hx⟩ := List.mem_map.mp h
  obtain ⟨r, hr, hfr⟩ := List.mem_filterMap.mp htriple
  cases r with
  | bad => simp [mapSegEv] at hfr
  | ev u k d =>
    rw [show mapSegEv seg cursor (.ev u k d) =
      (if seg.start ≤ u ∧ u ≤ seg.endTime then some (segEvTime seg cursor u, k, d) else none)
      from rfl] at hfr
    by_cases hin : seg.start ≤ u ∧ u ≤ seg.endTime
    · rw [if_pos hin] at hfr
      refine ⟨u, mem_validRawTimes hr, hin, ?_⟩
      rw [← hx, ← Option.some_inj.mp hfr]
    · rw [if_neg hin] at hfr
      simp at hfr

lemma mapSegEvents_props (seg : Segment) (cursor : ℚ) (evs : List RawEv)
    (hsorted : List.Sorted (· ≤ ·) (validRawTimes evs)) :
    List.Sorted (· ≤ ·) (evTimes (mapSegEvents seg cursor evs)) ∧
    ∀ x ∈ evTimes (mapSegEvents seg cursor evs),
      round6 cursor ≤ x ∧ x ≤ round6 (cursor + segmentLength seg) := by
  induction evs with
  | nil => simp [mapSegEvents, evTimes]
  | cons e rest ih =>
    cases e with
    | bad =>
      rw [show mapSegEvents seg cursor (.bad :: rest) = mapSegEvents seg cursor rest from by
        simp [mapSegEvents, List.filterMap_cons, mapSegEv]]
      exact ih hsorted
    | ev t k d =>
      rw [show validRawTimes (.ev t k d :: rest) = t :: validRawTimes rest from rfl] at hsorted
      rw [List.sorted_cons] at hsorted
      obtain ⟨hall, hsrest⟩ := hsorted
      obtain ⟨ihs, ihb⟩ := ih hsrest
      by_cases hin : seg.start ≤ t ∧ t ≤ seg.endTime
      · have hred : mapSegEvents seg cursor (.ev t k d :: rest) =
            (segEvTime seg cursor t, k, d) :: mapSegEvents seg cursor rest := by
          simp [mapSegEvents, List.filterMap_cons, mapSegEv, hin]
        rw [hred]
        constructor
        · rw [evTimes, List.map_cons, List.sorted_cons]
          refine ⟨?_, ihs⟩
          intro b hb
          obtain ⟨u, hu, huin, rfl⟩ := mem_evTimes_mapSegEvents hb
          exact segEvTime_mono seg cursor (hall u hu)
        · intro x hx
          rw [evTimes, List.map_cons] at hx
          rcases List.mem_cons.mp hx with h' | h'
          · rw [h']
            exact segEvTime_bounds seg cursor hin.1 hin.2
          · exact ihb x h'
      · rw [show mapSegEvents seg cursor (.ev t k d :: rest) = mapSegEvents seg cursor rest from by
          simp [mapSegEvents, List.filterMap_cons, mapSegEv, hin]]
        exact ⟨ihs, ihb⟩

lemma buildGo_props (m : Model) (segs : List Segment)
    (hsorted : ∀ seg ∈ segs, List.Sorted (· ≤ ·) (validRawTimes (segEvents m seg))) :
    ∀ cursor, List.Sorted (· ≤ ·) (evTimes (buildGo m cursor segs)) ∧
      ∀ x ∈ evTimes (buildGo m cursor segs), round6 cursor ≤ x := by
  induction segs with
  | nil =>
    intro cursor
    simp [buildGo, evTimes]
  | cons seg rest ih =>
    intro cursor
    obtain ⟨h1s, h1b⟩ := mapSegEvents_props seg cursor (segEvents m seg)
      (hsorted seg (by simp))
    obtain ⟨h2s, h2b⟩ := ih (fun s hs => hsorted s (by simp [hs])) (cursor + segmentLength seg)
    have hred : buildGo m cursor (seg :: rest) =
        mapSegEvents seg cursor (segEvents m seg) ++ buildGo m (cursor + segmentLength seg) rest :=
      rfl
    have hmap : evTimes (buildGo m cursor (seg :: rest)) =
        evTimes (mapSegEvents seg cursor (segEvents m seg)) ++
        evTimes (buildGo m (cursor + segmentLength seg) rest) := by
      rw [hred]
      exact List.map_append _ _ _
    constructor
    · rw [hmap]
      refine List.pairwise_append.mpr ⟨h1s, h2s, ?_⟩
      intro x hx y hy
      exact le_trans (h1b x hx).2 (h2b y hy)
    · intro x hx
      rw [hmap] at hx
      rcases List.mem_append.mp hx with h' | h'
      · exact (h1b x h').1
      · exact le_trans (round6_mono (by linarith [segmentLength_pos seg])) (h2b x h')

/-- C2 (amended): for a timeline whose segments satisfy the claim's
invariant *and whose segments' source event lists have non-decreasing
(valid) times* — the Recording-model invariant, which `normalizeEvents`
does not actually guarantee for old versions (see C1) — the flattened
export's event times are non-decreasing. -/
theorem buildEditedCast_monotone (m : Model)
    (hinv : ∀ seg ∈ m.segments, seg.start < seg.endTime ∧ 0 < seg.timelineDuration)
    (hsorted : ∀ seg ∈ m.segments, List.Sorted (· ≤ ·) (validRawTimes (segEvents m seg))) :
    List.Sorted (· ≤ ·) (evTimes (buildEditedCastEvents m)) :=
  (buildGo_props m m.segments hsorted 0).1

lemma round6_one : round6 1 = 1 := by
  unfold round6
  rw [one_mul]
  norm_num [round_ofNat]

lemma round6_zero : round6 0 = 0 := by
  unfold round6
  rw [zero_mul, round_zero]
  norm_num

/-- A model whose single segment satisfies the claim's invariant but
whose (primary) event list is out of order — reachable, since
`normalizeEvents` can emit decreasing times for old versions (C1). -/
def cexUnsortedModel : Model :=
  { segments := [{ sourceId := none, start := 0, endTime := 1, timelineDuration := 1 }],
    playheadTime := 0, composedDuration := 1,
    events := [RawEv.ev 1 "o" "a", RawEv.ev 0 "o" "b"], sources := [],
    clipboardSegment := none }

/-- C2 counterexample: `cexUnsortedModel`'s segment satisfies
`start < end` and `timelineDuration > 0`, yet the flattened export's
times are `[1, 0]` — decreasing.  The claim needs the source events to
be time-sorted, which it does not state (and which the parser does not
guarantee, per C1). -/
theorem buildEditedCast_unsorted_example :
    (∀ seg ∈ cexUnsortedModel.segments, seg.start < seg.endTime ∧ 0 < seg.timelineDuration)
  ∧ evTimes (buildEditedCastEvents cexUnsortedModel) = [1, 0]
  ∧ ¬ List.Sorted (· ≤ ·) ([1, 0] : List ℚ) := by
  refine ⟨by norm_num [cexUnsortedModel], ?_, ?_⟩
  · norm_num [cexUnsortedModel, buildEditedCastEvents, buildGo, mapSegEvents, mapSegEv,
      segEvents, segEvTime, sourceLength, segmentLength, evTimes, List.filterMap_cons,
      max_def, round6_one, round6_zero]
  · intro h
    rw [List.sorted_cons] at h
    have := h.1 0 (by simp)
    norm_num at this

/-- The sorted-events model for the C2 witness. -/
def wSortedModel : Model :=
  { segments := [wSeg], playheadTime := 0, composedDuration := 1,
    events := [RawEv.ev 0 "o" "a", RawEv.ev 1 "o" "b"], sources := [],
    clipboardSegment := none }

/-- C2 witness: the amended monotonicity theorem on a concrete
one-segment model with sorted events. -/
theorem buildEditedCast_monotone_witness :
    List.Sorted (· ≤ ·) (evTimes (buildEditedCastEvents wSortedModel)) :=
  buildEditedCast_monotone wSortedModel
    (by norm_num [wSortedModel, wSeg])
    (by
      intro seg hseg
      rw [show seg = wSeg from by simpa [wSortedModel] using hseg]
      norm_num [wSortedModel, wSeg, segEvents, validRawTimes, List.sorted_cons])

/-! ## Terminal replay engine (`src/src/main.jsx`) -/

/-- The style record of `makeDefaultStyle` (`main.jsx` lines 131–140):
optional foreground/background colors and six boolean attributes. -/
structure Style where
  fg : Option String
  bg : Option String
  bold : Bool
  dim : Bool
  italic : Bool
  underline : Bool
  inverse : Bool
  strike : Bool
deriving DecidableEq, Repr

/-- `makeDefaultStyle()` (`main.jsx` lines 131–140). -/
def makeDefaultStyle : Style :=
  { fg := none, bg := none, bold := false, dim := false, italic := false,
    underline := false, inverse := false, strike := false }

/-- One grid cell: `{ ch, style }`. -/
structure Cell where
  ch : Char
  style : Style
deriving DecidableEq, Repr

/-- The mutable replay state of `renderTerminalToHtml`: the `screen`
grid, the cursor `row`/`col` and `currentStyle`. -/
structure VTState where
  screen : List (List Cell)
  row : ℕ
  col : ℕ
  currentStyle : Style
deriving DecidableEq, Repr

/-- `DEFAULT_ANSI_PALETTE` (`main.jsx` lines 33–50). -/
def DEFAULT_ANSI_PALETTE : List String :=
  ["#000000", "#cd0000", "#00cd00", "#cdcd00", "#0000ee", "#cd00cd", "#00cdcd", "#e5e5e5",
   "#7f7f7f", "#ff0000", "#00ff00", "#ffff00", "#5c5cff", "#ff00ff", "#00ffff", "#ffffff"]

/-- A lowercase hex digit, as JS `Number.prototype.toString(16)` emits. -/
def hexDigitChar (n : ℕ) : Char :=
  if n < 10 then Char.ofNat (48 + n) else Char.ofNat (87 + n)

/-- `toHexByte(value) = clamp(Math.round(value), 0, 255).toString(16)
.padStart(2, "0")` (`main.jsx` lines 61–63); the inputs are naturals
here, so only the upper clamp can act and the result is always exactly
two digits. -/
def toHexByte (v : ℕ) : List Char :=
  [hexDigitChar (min v 255 / 16), hexDigitChar (min v 255 % 16)]

/-- `rgbToHex(r, g, b)` (`main.jsx` lines 65–67). -/
def rgbToHex (r g b : ℕ) : String :=
  String.mk ('#' :: (toHexByte r ++ toHexByte g ++ toHexByte b))

/-- The 6×6×6 cube step table of `ansi256ToHex` (`main.jsx` line 99). -/
def stepTable : List ℕ := [0, 95, 135, 175, 215, 255]

/-- `ansi256ToHex(index, palette)` (`main.jsx` lines 88–101).  A missing
palette entry is JS `undefined`, i.e. `none` (an unset color). -/
def ansi256ToHex (index : ℕ) (palette : List String) : Option String :=
  let value := min index 255
  if value < 16 then palette.get? value
  else if 232 ≤ value then
    some (rgbToHex (8 + (value - 232) * 10) (8 + (value - 232) * 10) (8 + (value - 232) * 10))
  else
    some (rgbToHex (stepTable.getD ((value - 16) / 36) 0)
      (stepTable.getD ((value - 16) % 36 / 6) 0) (stepTable.getD ((value - 16) % 6) 0))

/-- The loop body of `applySgr` (`main.jsx` lines 222–279), one branch
per SGR code, with the `38`/`48` extended-color lookahead consuming its
extra parameters (and, when the lookahead is too short, consuming
nothing — the mode value is then processed as an ordinary code on the
next iteration, exactly as the JS `i += 1` does).  The fuel argument
only bounds the iteration count; every step consumes at least one
parameter, so `values.length` fuel (what `applySgr` passes) never runs
out. -/
def sgrGo (pal : List String) : ℕ → Style → List ℕ → Style
  | 0, s, _ => s
  | _ + 1, s, [] => s
  | fuel + 1, s, code :: rest =>
    if code = 0 then sgrGo pal fuel makeDefaultStyle rest
    else if code = 1 then sgrGo pal fuel { s with bold := true } rest
    else if code = 2 then sgrGo pal fuel { s with dim := true } rest
    else if code = 3 then sgrGo pal fuel { s with italic := true } rest
    else if code = 4 then sgrGo pal fuel { s with underline := true } rest
    else if code = 7 then sgrGo pal fuel { s with inverse := true } rest
    else if code = 9 then sgrGo pal fuel { s with strike := true } rest
    else if code = 22 then sgrGo pal fuel { s with bold := false, dim := false } rest
    else if code = 23 then sgrGo pal fuel { s with italic := false } rest
    else if code = 24 then sgrGo pal fuel { s with underline := false } rest
    else if code = 27 then sgrGo pal fuel { s with inverse := false } rest
    else if code = 29 then sgrGo pal fuel { s with strike := false } rest
    else if 30 ≤ code ∧ code ≤ 37 then sgrGo pal fuel { s with fg := pal.get? (code - 30) } rest
    else if code = 39 then sgrGo pal fuel { s with fg := none } rest
    else if 40 ≤ code ∧ code ≤ 47 then sgrGo pal fuel { s with bg := pal.get? (code - 40) } rest
    else if code = 49 then sgrGo pal fuel { s with bg := none } rest
    else if 90 ≤ code ∧ code ≤ 97 then
      sgrGo pal fuel { s with fg := pal.get? (code - 90 + 8) } rest
    else if 100 ≤ code ∧ code ≤ 107 then
      sgrGo pal fuel { s with bg := pal.get? (code - 100 + 8) } rest
    else if code = 38 ∨ code = 48 then
      match rest with
      | 5 :: n :: rest2 =>
        if code = 38 then sgrGo pal fuel { s with fg := ansi256ToHex n pal } rest2
        else sgrGo pal fuel { s with bg := ansi256ToHex n pal } rest2
      | 2 :: r :: g :: b :: rest3 =>
        if code = 38 then sgrGo pal fuel { s with fg := some (rgbToHex r g b) } rest3
        else sgrGo pal fuel { s with bg := some (rgbToHex r g b) } rest3
      | _ => sgrGo pal fuel s rest
    else sgrGo pal fuel s rest

/-- `applySgr(params)` (`main.jsx` line 223): an empty parameter list is
treated as `[0]`. -/
def applySgr (pal : List String) (s : Style) (params : List ℕ) : Style :=
  let values := if params.isEmpty then [0] else params
  sgrGo pal values.length s values

/-- A blank cell carrying a given style (`makeBlankCell` snapshots
`currentStyle`, `main.jsx` line 143). -/
def makeBlankCell (s : Style) : Cell := { ch := ' ', style := s }

/-- The initial `rows × cols` grid of default-style blanks
(`main.jsx` lines 144–146). -/
def initScreen (rows cols : ℕ) : List (List Cell) :=
  List.replicate rows (List.replicate cols (makeBlankCell makeDefaultStyle))

/-- The initial replay state: empty grid, cursor at origin, default
style. -/
def initState (rows cols : ℕ) : VTState :=
  { screen := initScreen rows cols, row := 0, col := 0, currentStyle := makeDefaultStyle }

/-- JS array element assignment `line[i] = v`: in-bounds writes replace,
a write at index `length` **appends** (JS arrays grow).  An index beyond
`length + 1` would create a sparse array and cannot occur here: every
write loop of the replay engine walks a contiguous range starting inside
the array. -/
def jsSet (l : List Cell) (i : ℕ) (v : Cell) : List Cell :=
  if i < l.length then l.set i v else l ++ [v]

/-- `screen[r][c] = cell`: mutate cell `c` of row `r` in place. -/
def setCell (screen : List (List Cell)) (r c : ℕ) (cell : Cell) : List (List Cell) :=
  screen.set r (jsSet (screen.getD r []) c cell)

/-- `writeChar(ch)` (`main.jsx` lines 156–186): newline advances and
scrolls (drop the first row, append a blank row in the current style),
carriage return and backspace move the column, any other character wraps
if the column is past the last cell and is then written at the cursor. -/
def writeChar (rows cols : ℕ) (st : VTState) (ch : Char) : VTState :=
  if ch = '\n' then
    let st1 := { st with row := st.row + 1, col := 0 }
    if rows ≤ st1.row then
      { st1 with
        screen := st1.screen.tail ++ [List.replicate cols (makeBlankCell st1.currentStyle)],
        row := rows - 1 }
    else st1
  else if ch = '\x0d' then { st with col := 0 }
  else if ch = '\x08' then { st with col := st.col - 1 }
  else
    let st1 :=
      if cols ≤ st.col then
        let st2 := { st with row := st.row + 1, col := 0 }
        if rows ≤ st2.row then
          { st2 with
            screen := st2.screen.tail ++ [List.replicate cols (makeBlankCell st2.currentStyle)],
            row := rows - 1 }
        else st2
      else st
    { st1 with
      screen := setCell st1.screen st1.row st1.col { ch := ch, style := st1.currentStyle },
      col := st1.col + 1 }

/-- `eraseInLine(mode)` (`main.jsx` lines 188–196): blank `[col, cols)`,
`[0, col]` (inclusive!) or `[0, cols)` of the current row, writing each
index through the JS assignment semantics of `jsSet`. -/
def eraseInLine (cols : ℕ) (st : VTState) (mode : ℕ) : VTState :=
  if mode = 0 then
    let sc := (List.range' st.col (cols - st.col)).foldl
      (fun sc c => setCell sc st.row c (makeBlankCell st.currentStyle)) st.screen
    { st with screen := sc }
  else if mode = 1 then
    let sc := (List.range (st.col + 1)).foldl
      (fun sc c => setCell sc st.row c (makeBlankCell st.currentStyle)) st.screen
    { st with screen := sc }
  else if mode = 2 then
    let sc := (List.range cols).foldl
      (fun sc c => setCell sc st.row c (makeBlankCell st.currentStyle)) st.screen
    { st with screen := sc }
  else st

/-- `eraseInDisplay(mode)` (`main.jsx` lines 198–220): mode 2 resets the
whole grid (default style) and the cursor; mode 0 erases to the end of
the line then all rows below; mode 1 erases from the start of the line
then all rows above. -/
def eraseInDisplay (rows cols : ℕ) (st : VTState) (mode : ℕ) : VTState :=
  if mode = 2 then
    { st with screen := initScreen rows cols, row := 0, col := 0 }
  else if mode = 0 then
    let st1 := eraseInLine cols st 0
    let sc := (List.range' (st.row + 1) (rows - (st.row + 1))).foldl
      (fun sc r => (List.range cols).foldl
        (fun sc2 c => setCell sc2 r c (makeBlankCell st.currentStyle)) sc) st1.screen
    { st1 with screen := sc }
  else if mode = 1 then
    let st1 := eraseInLine cols st 1
    let sc := (List.range st.row).foldl
      (fun sc r => (List.range cols).foldl
        (fun sc2 c => setCell sc2 r c (makeBlankCell st.currentStyle)) sc) st1.screen
    { st1 with screen := sc }
  else st

/-- The final byte class `[@-~]` of a CSI sequence. -/
def isCsiFinal (c : Char) : Bool := decide ('@' ≤ c ∧ c ≤ '~')

/-- The CSI parameter class `[0-9:;<=>?]` — exactly the code points
`0x30`–`0x3f`. -/
def isParamChar (c : Char) : Bool := decide ('0' ≤ c ∧ c ≤ '?')

/-- The private prefix class `[<=>?]` stripped by
`paramText.replace(/^[<=>?]+/, "")` (`main.jsx` line 286). -/
def isPrivateChar (c : Char) : Bool := decide ('<' ≤ c ∧ c ≤ '?')

/-- Strip the leading run of `[<=>?]` characters. -/
def stripPrivateLead : List Char → List Char
  | [] => []
  | c :: rest => if isPrivateChar c then stripPrivateLead rest else c :: rest

/-- `String.prototype.split(";")`: empty pieces are kept, the empty
string splits to one empty piece. -/
def splitSemis : List Char → List (List Char)
  | [] => [[]]
  | c :: rest =>
    if c = ';' then [] :: splitSemis rest
    else
      match splitSemis rest with
      | [] => [[c]]
      | p :: ps => (c :: p) :: ps

def isDigitChar (c : Char) : Bool := decide ('0' ≤ c ∧ c ≤ '9')

def digitsToNat (l : List Char) : ℕ := l.foldl (fun n c => 10 * n + (c.toNat - 48)) 0

/-- `Number(p) || 0` on one parameter piece: an empty piece or one with
any non-digit (`:<=>?` can occur mid-text) is `NaN`/`0` → 0. -/
def parseParam (l : List Char) : ℕ :=
  if l ≠ [] ∧ l.all isDigitChar then digitsToNat l else 0

/-- Parameter parsing of `handleEscape` (`main.jsx` lines 286–287):
strip the private prefix; an empty parameter text is `[0]`, else split
on `;` and parse each piece. -/
def parseParams (body : List Char) : List ℕ :=
  let paramText := stripPrivateLead body
  if paramText.isEmpty then [0]
  else (splitSemis paramText).map parseParam

/-- `ensureBounds()` (`main.jsx` lines 151–154): clamp the cursor into
the grid.  JS clamps below at 0 as well; the `ℕ` embedding makes the
lower clamp implicit (subtraction already floors at 0). -/
def ensureBounds (rows cols : ℕ) (st : VTState) : VTState :=
  { st with row := min st.row (rows - 1), col := min st.col (cols - 1) }

/-- `params[i] || 1` (missing and 0 both become 1). -/
def paramOr1 (params : List ℕ) (i : ℕ) : ℕ :=
  let p := (params.get? i).getD 0
  if p = 0 then 1 else p

/-- `params[0] || 0`. -/
def param0 (params : List ℕ) : ℕ := (params.get? 0).getD 0

/-- The `switch` of `handleEscape` (`main.jsx` lines 290–325): `H` is
absolute positioning (1-based, clamped), `A`–`D` relative moves with
`ensureBounds`, `J`/`K` erase, `m` is SGR; any other final byte is a
no-op. -/
def csiApply (rows cols : ℕ) (pal : List String) (st : VTState) (params : List ℕ)
    (code : Char) : VTState :=
  if code = 'H' then
    { st with row := min (paramOr1 params 0 - 1) (rows - 1),
              col := min (paramOr1 params 1 - 1) (cols - 1) }
  else if code = 'A' then ensureBounds rows cols { st with row := st.row - paramOr1 params 0 }
  else if code = 'B' then ensureBounds rows cols { st with row := st.row + paramOr1 params 0 }
  else if code = 'C' then ensureBounds rows cols { st with col := st.col + paramOr1 params 0 }
  else if code = 'D' then ensureBounds rows cols { st with col := st.col - paramOr1 params 0 }
  else if code = 'J' then eraseInDisplay rows cols st (param0 params)
  else if code = 'K' then eraseInLine cols st (param0 params)
  else if code = 'm' then { st with currentStyle := applySgr pal st.currentStyle params }
  else st

/-- `handleEscape(seq)` (`main.jsx` lines 281–327) for a scanned CSI
sequence `ESC [ body code`: the regex `^([0-9:;<=>?]*)([@-~])$` matches
iff every body character is in the parameter class (the scanner already
guarantees `code ∈ [@-~]` and that `body` holds no final byte); a
non-matching body is a no-op. -/
def handleEscape (rows cols : ℕ) (pal : List String) (st : VTState) (body : List Char)
    (code : Char) : VTState :=
  if body.all isParamChar then csiApply rows cols pal st (parseParams body) code
  else st

/-- The CSI scan of `processText` (`main.jsx` lines 336–337): advance to
the first final byte `[@-~]`; `none` when the stream ends first. -/
def findCsi : List Char → Option (List Char × Char × List Char)
  | [] => none
  | c :: rest =>
    if isCsiFinal c then some ([], c, rest)
    else
      match findCsi rest with
      | some (body, fin, r) => some (c :: body, fin, r)
      | none => none

/-- The OSC scan (`main.jsx` lines 346–360): consume up to a `BEL` or an
`ESC \` terminator; `none` when the stream ends first (the remainder is
then discarded). -/
def skipOsc : List Char → Option (List Char)
  | [] => none
  | c :: rest =>
    if c = '\x07' then some rest
    else if c = '\x1b' then
      match rest with
      | c2 :: rest2 => if c2 = '\\' then some rest2 else skipOsc rest
      | [] => skipOsc rest
    else skipOsc rest

/-- The DCS/SOS/PM/APC scan (`main.jsx` lines 362–372): only `ESC \`
terminates. -/
def skipSt : List Char → Option (List Char)
  | [] => none
  | c :: rest =>
    if c = '\x1b' then
      match rest with
      | c2 :: rest2 => if c2 = '\\' then some rest2 else skipSt rest
      | [] => skipSt rest
    else skipSt rest

/-- The scanning loop of `processText` (`main.jsx` lines 329–380),
embedded with a fuel argument (the character index only moves forward,
so `text.length` fuel always suffices; `processText` below instantiates
it).  `ESC [` scans to a final byte and dispatches `handleEscape`;
`ESC ]` and `ESC P/X/^/_` skip to their terminators; a scan that ends
without a terminator consumes the remainder; any other `ESC x` consumes
two characters; anything else is written to the grid. -/
def procGo (rows cols : ℕ) (pal : List String) : ℕ → VTState → List Char → VTState
  | 0, st, _ => st
  | _ + 1, st, [] => st
  | fuel + 1, st, c :: rest =>
    if c = '\x1b' then
      match rest with
      | [] => st
      | c2 :: rest2 =>
        if c2 = '[' then
          match findCsi rest2 with
          | some (body, fin, rest3) =>
            procGo rows cols pal fuel (handleEscape rows cols pal st body fin) rest3
          | none => st
        else if c2 = ']' then
          match skipOsc rest2 with
          | some rest3 => procGo rows cols pal fuel st rest3
          | none => st
        else if c2 = 'P' ∨ c2 = 'X' ∨ c2 = '^' ∨ c2 = '_' then
          match skipSt rest2 with
          | some rest3 => procGo rows cols pal fuel st rest3
          | none => st
        else procGo rows cols pal fuel st rest2
    else procGo rows cols pal fuel (writeChar rows cols st c) rest

/-- `processText(text)` (`main.jsx` lines 329–380). -/
def processText (rows cols : ℕ) (pal : List String) (st : VTState) (text : List Char) : VTState :=
  procGo rows cols pal text.length st text

/-- The event loop of `renderTerminalToHtml` (`main.jsx` lines 382–384):
each entry is one output event's `data` string (the events' times play
no role here). -/
def replayEvents (rows cols : ℕ) (pal : List String) (events : List String) : VTState :=
  events.foldl (fun st e => processText rows cols pal st e.toList) (initState rows cols)

/-- `escapeHtml` (`main.jsx` lines 52–59): replace `&<>"`, keep
everything else. -/
def escapeHtmlChar (c : Char) : String :=
  if c = '&' then "&amp;"
  else if c = '<' then "&lt;"
  else if c = '>' then "&gt;"
  else if c = '"' then "&quot;"
  else String.mk [c]

def escapeHtml (s : String) : String := String.join (s.toList.map escapeHtmlChar)

def boolDigit (b : Bool) : String := if b then "1" else "0"

/-- `cellStyleKey(style)` (`main.jsx` lines 103–106). -/
def cellStyleKey (style : Style) : String :=
  style.fg.getD "" ++ "|" ++ style.bg.getD "" ++ "|" ++ boolDigit style.bold ++ "|" ++
  boolDigit style.italic ++ "|" ++ boolDigit style.underline ++ "|" ++
  boolDigit style.inverse ++ "|" ++ boolDigit style.strike ++ "|" ++ boolDigit style.dim

/-- JS truthiness of an optional color (`undefined`/`""` are falsy). -/
def optTruthy (o : Option String) : Bool :=
  match o with
  | none => false
  | some s => !s.isEmpty

/-- `cellStyleToCss(style)` (`main.jsx` lines 108–128): swap colors on
inverse, emit the set attributes, join with `;`. -/
def cellStyleToCss (style : Style) : String :=
  let fg := if style.inverse then style.bg else style.fg
  let bg := if style.inverse then style.fg else style.bg
  let css :=
    (if optTruthy fg then ["color:" ++ fg.getD ""] else []) ++
    (if optTruthy bg then ["background-color:" ++ bg.getD ""] else []) ++
    (if style.bold then ["font-weight:700"] else []) ++
    (if style.italic then ["font-style:italic"] else []) ++
    (if style.underline || style.strike then
      ["text-decoration:" ++ String.intercalate " "
        ((if style.underline then ["underline"] else []) ++
         (if style.strike then ["line-through"] else []))]
     else []) ++
    (if style.dim then ["opacity:0.75"] else [])
  String.intercalate ";" css

def spanWrap (css text : String) : String :=
  "<span style=\"" ++ css ++ "\">" ++ text ++ "</span>"

/-- One flush of the run renderer: `runCss ? span : bare`, with the text
HTML-escaped (`main.jsx` lines 400–401 and 409–410). -/
def emitRun (css text : String) : String :=
  if css.isEmpty then escapeHtml text else spanWrap css (escapeHtml text)

/-- The run loop of `renderRow` (`main.jsx` lines 386–412): group
consecutive cells with the same style key into runs. -/
def renderRowGo : String → String → Option String → String → List Cell → String
  | output, runText, _, runCss, [] => output ++ emitRun runCss runText
  | output, runText, runKey, runCss, cell :: rest =>
    let key := cellStyleKey cell.style
    match runKey with
    | none => renderRowGo output (runText.push cell.ch) (some key) (cellStyleToCss cell.style) rest
    | some rk =>
      if key ≠ rk then
        renderRowGo (output ++ emitRun runCss runText) (String.mk [cell.ch]) (some key)
          (cellStyleToCss cell.style) rest
      else renderRowGo output (runText.push cell.ch) (some rk) runCss rest

/-- `renderRow(line)` (`main.jsx` lines 386–412). -/
def renderRow (line : List Cell) : String := renderRowGo "" "" none "" line

/-- The per-row HTML strings of the final grid. -/
def renderLines (rows cols : ℕ) (events : List String) (pal : List String) : List String :=
  (replayEvents rows cols pal events).screen.map renderRow

/-- `renderTerminalToHtml(rows, cols, eventsUntilTime, theme)`
(`main.jsx` lines 130–415).  Only the theme's 16-color `palette` reaches
the replay (via SGR); the theme's default fg/bg are applied outside this
function. -/
def renderTerminalToHtml (rows cols : ℕ) (events : List String) (pal : List String) : String :=
  String.intercalate "\n" (renderLines rows cols events pal)

/-! ## C7: SGR 0 resets the style -/

/-- The style reached from the default style by a finite sequence of SGR
parameter lists. -/
def applySgrSeq (pal : List String) (pss : List (List ℕ)) : Style :=
  pss.foldl (applySgr pal) makeDefaultStyle

/-- C7: after any finite sequence of SGR parameter lists, applying SGR
`[0]` yields exactly the default style (colors unset, all six booleans
false); an empty parameter list is treated as `[0]`, so it resets too,
and indeed `applySgr s []` equals `applySgr s [0]` for every style. -/
theorem sgr_zero_resets (pal : List String) (pss : List (List ℕ)) :
    applySgr pal (applySgrSeq pal pss) [0] = makeDefaultStyle
  ∧ applySgr pal (applySgrSeq pal pss) [] = makeDefaultStyle
  ∧ ∀ s : Style, applySgr pal s [] = applySgr pal s [0] :=
  ⟨rfl, rfl, fun _ => rfl⟩

/-! ## C8: 256-color resolution -/

/-- C8: `ansi256ToHex` follows the spec's formula on all three index
bands — direct palette entry below 16, the 6×6×6 cube through the step
table on 16–231, the 24-step grayscale ramp on 232–255 — and hits the
three worked examples `196 ↦ #ff0000`, `232 ↦ #080808`,
`255 ↦ #eeeeee`. -/
theorem ansi256_spec (idx : ℕ) (pal : List String) :
    (idx ≤ 15 → ansi256ToHex idx pal = pal.get? idx)
  ∧ (16 ≤ idx → idx ≤ 231 →
      ansi256ToHex idx pal =
        some (rgbToHex (stepTable.getD ((idx - 16) / 36) 0)
          (stepTable.getD ((idx - 16) % 36 / 6) 0) (stepTable.getD ((idx - 16) % 6) 0)))
  ∧ (232 ≤ idx → idx ≤ 255 →
      ansi256ToHex idx pal =
        some (rgbToHex (8 + 10 * (idx - 232)) (8 + 10 * (idx - 232)) (8 + 10 * (idx - 232))))
  ∧ ansi256ToHex 196 pal = some "#ff0000"
  ∧ ansi256ToHex 232 pal = some "#080808"
  ∧ ansi256ToHex 255 pal = some "#eeeeee" := by
  refine ⟨?_, ?_, ?_, rfl, rfl, rfl⟩
  · intro h
    unfold ansi256ToHex
    dsimp only
    rw [min_eq_left (by omega), if_pos (by omega)]
  · intro h1 h2
    unfold ansi256ToHex
    dsimp only
    rw [min_eq_left (by omega), if_neg (by omega), if_neg (by omega)]
  · intro h1 h2
    unfold ansi256ToHex
    dsimp only
    rw [min_eq_left (by omega), if_neg (by omega), if_pos (by omega),
      show (idx - 232) * 10 = 10 * (idx - 232) from by ring]

/-- C8 witness: the palette band at index 5 on the default palette. -/
theorem ansi256_spec_witness :
    ansi256ToHex 5 DEFAULT_ANSI_PALETTE = DEFAULT_ANSI_PALETTE.get? 5 :=
  (ansi256_spec 5 DEFAULT_ANSI_PALETTE).1 (by omega)

/-! ## C9: malformed escape sequences never break replay -/

lemma findCsi_length : ∀ {l b : List Char} {fin : Char} {r : List Char},
    findCsi l = some (b, fin, r) → r.length < l.length := by
  intro l
  induction l with
  | nil =>
    intro b fin r h
    simp [findCsi] at h
  | cons c rest ih =>
    intro b fin r h
    unfold findCsi at h
    split at h
    · simp only [Option.some_inj, Prod.mk.injEq] at h
      obtain ⟨h1, h2, h3⟩ := h
      subst h3
      simp
    · cases hfc : findCsi rest with
      | none =>
        rw [hfc] at h
        simp at h
      | some trip =>
        obtain ⟨b', f', r'⟩ := trip
        rw [hfc] at h
        simp only [Option.some_inj, Prod.mk.injEq] at h
        obtain ⟨h1, h2, h3⟩ := h
        subst h3
        have := ih hfc
        simp only [List.length_cons]
        omega

lemma skipOsc_length : ∀ {l r : List Char}, skipOsc l = some r → r.length < l.length := by
  intro l
  induction l with
  | nil =>
    intro r h
    simp [skipOsc] at h
  | cons c rest ih =>
    intro r h
    unfold skipOsc at h
    split at h
    · rw [← Option.some_inj.mp h]
      simp
    · split at h
      · cases rest with
        | nil =>
          simp [skipOsc] at h
        | cons c2 rest2 =>
          dsimp only at h
          split at h
          · rw [← Option.some_inj.mp h]
            simp
            omega
          · have := ih h
            simp only [List.length_cons] at this ⊢
            omega
      · have := ih h
        simp only [List.length_cons]
        omega

lemma skipSt_length : ∀ {l r : List Char}, skipSt l = some r → r.length < l.length := by
  intro l
  induction l with
  | nil =>
    intro r h
    simp [skipSt] at h
  | cons c rest ih =>
    intro r h
    unfold skipSt at h
    split at h
    · cases rest with
      | nil =>
        simp [skipSt] at h
      | cons c2 rest2 =>
        dsimp only at h
        split at h
        · rw [← Option.some_inj.mp h]
          simp
          omega
        · have := ih h
          simp only [List.length_cons] at this ⊢
          omega
    · have := ih h
      simp only [List.length_cons]
      omega

lemma procGo_nil (rows cols : ℕ) (pal : List String) (f : ℕ) (st : VTState) :
    procGo rows cols pal f st [] = st := by
  cases f <;> rfl

/-- The fuel of `procGo` is irrelevant once it covers the text length:
every step consumes at least one character. -/
lemma procGo_add (rows cols : ℕ) (pal : List String) (k : ℕ) :
    ∀ (f : ℕ) (st : VTState) (l : List Char), l.length ≤ f →
      procGo rows cols pal (f + k) st l = procGo rows cols pal f st l := by
  intro f
  induction f with
  | zero =>
    intro st l h
    have hl : l = [] := List.length_eq_zero.mp (Nat.le_antisymm h (Nat.zero_le _))
    subst hl
    rw [procGo_nil, procGo_nil]
  | succ f ih =>
    intro st l h
    cases l with
    | nil => rw [procGo_nil, procGo_nil]
    | cons c rest =>
      have hrest : rest.length ≤ f := by
        simp only [List.length_cons] at h
        omega
      rw [show f + 1 + k = (f + k) + 1 from by omega]
      simp only [procGo]
      by_cases hc : c = '\x1b'
      · rw [if_pos hc, if_pos hc]
        cases rest with
        | nil => rfl
        | cons c2 rest2 =>
          have hrest2 : rest2.length + 1 ≤ f := by
            simp only [List.length_cons] at hrest
            omega
          dsimp only
          by_cases h2 : c2 = '['
          · rw [if_pos h2, if_pos h2]
            cases hfc : findCsi rest2 with
            | none => rfl
            | some trip =>
              obtain ⟨body, fin, rest3⟩ := trip
              have := findCsi_length hfc
              exact ih _ _ (by omega)
          · rw [if_neg h2, if_neg h2]
            by_cases h3 : c2 = ']'
            · rw [if_pos h3, if_pos h3]
              cases hso : skipOsc rest2 with
              | none => rfl
              | some rest3 =>
                have := skipOsc_length hso
                exact ih _ _ (by omega)
            · rw [if_neg h3, if_neg h3]
              by_cases h4 : c2 = 'P' ∨ c2 = 'X' ∨ c2 = '^' ∨ c2 = '_'
              · rw [if_pos h4, if_pos h4]
                cases hst : skipSt rest2 with
                | none => rfl
                | some rest3 =>
                  have := skipSt_length hst
                  exact ih _ _ (by omega)
              · rw [if_neg h4, if_neg h4]
                exact ih _ _ (by omega)
      · rw [if_neg hc, if_neg hc]
        exact ih _ _ hrest

/-- Any sufficient fuel computes `processText`. -/
lemma procGo_eq_processText (rows cols : ℕ) (pal : List String) (f : ℕ) (st : VTState)
    (l : List Char) (h : l.length ≤ f) :
    procGo rows cols pal f st l = processText rows cols pal st l := by
  unfold processText
  rw [show f = l.length + (f - l.length) from by omega]
  exact procGo_add rows cols pal (f - l.length) l.length st l le_rfl

lemma findCsi_none_of {l : List Char} (h : ∀ c ∈ l, isCsiFinal c = false) :
    findCsi l = none := by
  induction l with
  | nil => rfl
  | cons c rest ih =>
    unfold findCsi
    rw [if_neg (by simp [h c (by simp)]), ih (fun c' hc' => h c' (by simp [hc']))]

lemma findCsi_app {junk : List Char} (fin : Char) (rest : List Char)
    (h : ∀ c ∈ junk, isCsiFinal c = false) (hfin : isCsiFinal fin = true) :
    findCsi (junk ++ fin :: rest) = some (junk, fin, rest) := by
  induction junk with
  | nil =>
    rw [List.nil_append]
    unfold findCsi
    simp [hfin]
  | cons c junk' ih =>
    rw [List.cons_append]
    unfold findCsi
    rw [if_neg (by simp [h c (by simp)]), ih (fun c' hc' => h c' (by simp [hc']))]

lemma skipOsc_none_of {l : List Char} (h : ∀ c ∈ l, c ≠ '\x07' ∧ c ≠ '\x1b') :
    skipOsc l = none := by
  induction l with
  | nil => rfl
  | cons c rest ih =>
    unfold skipOsc
    rw [if_neg (h c (by simp)).1, if_neg (h c (by simp)).2,
      ih (fun c' hc' => h c' (by simp [hc']))]

lemma skipOsc_app {junk : List Char} (rest : List Char)
    (h : ∀ c ∈ junk, c ≠ '\x07' ∧ c ≠ '\x1b') :
    skipOsc (junk ++ '\x07' :: rest) = some rest := by
  induction junk with
  | nil => rfl
  | cons c junk' ih =>
    rw [List.cons_append]
    unfold skipOsc
    rw [if_neg (h c (by simp)).1, if_neg (h c (by simp)).2,
      ih (fun c' hc' => h c' (by simp [hc']))]

lemma skipSt_none_of {l : List Char} (h : ∀ c ∈ l, c ≠ '\x1b') : skipSt l = none := by
  induction l with
  | nil => rfl
  | cons c rest ih =>
    unfold skipSt
    rw [if_neg (h c (by simp)), ih (fun c' hc' => h c' (by simp [hc']))]

lemma skipSt_app {junk : List Char} (rest : List Char) (h : ∀ c ∈ junk, c ≠ '\x1b') :
    skipSt (junk ++ '\x1b' :: '\\' :: rest) = some rest := by
  induction junk with
  | nil => rfl
  | cons c junk' ih =>
    rw [List.cons_append]
    unfold skipSt
    rw [if_neg (h c (by simp)), ih (fun c' hc' => h c' (by simp [hc']))]

/-- C9: replay is total by construction (`processText` is a function on
all strings), and malformed or truncated sequences are consumed exactly
as the spec describes: a CSI body with no final byte, an OSC with no
`BEL`/`ESC \`, and a DCS with no `ESC \` each swallow the remainder of
the event text and leave the state untouched; with a terminator present
the scan resumes right after it (CSI dispatching `handleEscape`, OSC/DCS
skipped without effect). -/
theorem replay_skips_malformed (rows cols : ℕ) (pal : List String) (st : VTState)
    (junk rest : List Char) :
    ((∀ c ∈ junk, isCsiFinal c = false) →
      processText rows cols pal st ('\x1b' :: '[' :: junk) = st)
  ∧ ((∀ c ∈ junk, isCsiFinal c = false) → ∀ fin, isCsiFinal fin = true →
      processText rows cols pal st ('\x1b' :: '[' :: (junk ++ fin :: rest)) =
        processText rows cols pal (handleEscape rows cols pal st junk fin) rest)
  ∧ ((∀ c ∈ junk, c ≠ '\x07' ∧ c ≠ '\x1b') →
      processText rows cols pal st ('\x1b' :: ']' :: junk) = st)
  ∧ ((∀ c ∈ junk, c ≠ '\x07' ∧ c ≠ '\x1b') →
      processText rows cols pal st ('\x1b' :: ']' :: (junk ++ '\x07' :: rest)) =
        processText rows cols pal st rest)
  ∧ ((∀ c ∈ junk, c ≠ '\x1b') →
      processText rows cols pal st ('\x1b' :: 'P' :: junk) = st)
  ∧ ((∀ c ∈ junk, c ≠ '\x1b') →
      processText rows cols pal st ('\x1b' :: 'P' :: (junk ++ '\x1b' :: '\\' :: rest)) =
        processText rows cols pal st rest) := by
  refine ⟨?_, ?_, ?_, ?_, ?_, ?_⟩
  · intro h
    show procGo rows cols pal (junk.length + 1 + 1) st ('\x1b' :: '[' :: junk) = st
    simp [procGo, findCsi_none_of h]
  · intro h fin hfin
    show procGo rows cols pal ((junk ++ fin :: rest).length + 1 + 1) st
      ('\x1b' :: '[' :: (junk ++ fin :: rest)) = _
    simp only [procGo, if_pos rfl, findCsi_app fin rest h hfin]
    exact procGo_eq_processText rows cols pal _ _ _
      (by simp only [List.length_append, List.length_cons]; omega)
  · intro h
    show procGo rows cols pal (junk.length + 1 + 1) st ('\x1b' :: ']' :: junk) = st
    simp [procGo, skipOsc_none_of h]
  · intro h
    show procGo rows cols pal ((junk ++ '\x07' :: rest).length + 1 + 1) st
      ('\x1b' :: ']' :: (junk ++ '\x07' :: rest)) = _
    simp only [procGo, if_pos rfl, skipOsc_app rest h]
    exact procGo_eq_processText rows cols pal _ _ _
      (by simp only [List.length_append, List.length_cons]; omega)
  · intro h
    show procGo rows cols pal (junk.length + 1 + 1) st ('\x1b' :: 'P' :: junk) = st
    simp [procGo, skipSt_none_of h]
  · intro h
    show procGo rows cols pal ((junk ++ '\x1b' :: '\\' :: rest).length + 1 + 1) st
      ('\x1b' :: 'P' :: (junk ++ '\x1b' :: '\\' :: rest)) = _
    simp only [procGo, if_pos rfl, skipSt_app rest h]
    exact procGo_eq_processText rows cols pal _ _ _
      (by simp only [List.length_append, List.length_cons]; omega)

/-- C9 witness: concrete malformed inputs on a 2×2 screen — an
unterminated CSI and an OSC skipped to its `BEL`. -/
theorem replay_skips_malformed_witness :
    processText 2 2 [] (initState 2 2) ('\x1b' :: '[' :: ['1', '2', ';']) = initState 2 2 :=
  (replay_skips_malformed 2 2 [] (initState 2 2) ['1', '2', ';'] []).1 (by decide)

/-! ## C10: the grid-shape invariant fails (code bug)

With the cursor in the pending-wrap position (`col = cols`, reached by
writing into the last column), `eraseInLine` mode 1 runs
`for (c = 0; c <= col; c++) screen[row][c] = …`, whose last write lands
at index `cols` — one past the end of the row array, which JS silently
grows.  The row then has `cols + 1` cells and the rendered line's cell
text has `cols + 1` characters, contradicting the fixed `rows × cols`
Screen of the spec (§3) that the rest of the code (renderRow, the
erase/scroll logic) assumes.  Failing input: `rows = 1`, `cols = 1`,
one output event `"a\x1b[1K"`. -/
theorem eraseInLine_overflow_example :
    renderTerminalToHtml 1 1 ["a\x1b[1K"] [] = "  "
  ∧ ((replayEvents 1 1 [] ["a\x1b[1K"]).screen.map List.length) = [2]
  ∧ (2 : ℕ) ≠ 1 :=
  ⟨rfl, rfl, by decide⟩

end AsciiEdit
